import Mathlib

/-!
# Jira epic table: a shallow embedding of `jira/table_jira_epic.go`

The file embeds the schema descriptor `tableEpic`, the paginated list
hydrate `listEpics` and the point lookup `getEpic` as Lean functions, with
the API client, the remote system and the row sink made explicit:

* the client is a pair of state-passing functions (`NewRequest`, `Do`);
* every call to `NewRequest`, every call to `Do` and every streamed row is
  appended to a log (`Run`), so that "which requests were issued" and
  "which rows were delivered" are values one can state theorems about;
* the unbounded `for` loop of `listEpics` takes a fuel argument: one unit of
  fuel is one loop iteration, and `none` in the result position means the
  function has not returned within that many iterations;
* Go `int` is modelled as `Int` with the 64-bit two's-complement wrap applied
  at the one place the code does arithmetic (`StartAt + len(Values)`).
-/

namespace Jira

/-! ## Data model -/

/-- Go `error` value as the code observes it: `message` is what `Error()`
returns; `statusCode` is the HTTP status of the response the error stems
from, when there is one. -/
structure Error where
  message : String
  statusCode : Option Nat
deriving DecidableEq, Repr

/-- Go struct `Color`. -/
structure Color where
  key : String
deriving DecidableEq, Repr

/-- Go struct `Epic` (field `Id` is an `int64`). -/
structure Epic where
  color : Color
  done : Bool
  id : Int
  key : String
  name : String
  self : String
  summary : String
deriving DecidableEq, Repr

/-- Go struct `ListEpicResult` (the integer fields are Go `int`). -/
structure ListEpicResult where
  maxResults : Int
  startAt : Int
  total : Int
  isLast : Bool
  values : List Epic
deriving DecidableEq, Repr

/-! ## Machine integers -/

/-- Width in bits of Go `int` on a 64-bit target. -/
def intSize : Nat := 64

/-- Smallest Go `int`. -/
def minInt : Int := -(2 ^ (intSize - 1))

/-- Largest Go `int`. -/
def maxInt : Int := 2 ^ (intSize - 1) - 1

/-- Two's-complement wrap of a mathematical integer into the range of Go `int`. -/
def wrapInt (x : Int) : Int :=
  (x + 2 ^ (intSize - 1)) % 2 ^ intSize - 2 ^ (intSize - 1)

/-- Go `a + b` on `int`. -/
def addInt (a b : Int) : Int := wrapInt (a + b)

/-- Membership in the range of Go `int`. -/
def InIntRange (x : Int) : Prop := minInt ≤ x ∧ x ≤ maxInt

instance (x : Int) : Decidable (InIntRange x) := by
  unfold InIntRange; infer_instance

/-! ## The client, the remote system and the log -/

/-- An HTTP request as built by `client.NewRequest`. -/
structure Request where
  method : String
  url : String
deriving DecidableEq, Repr

/-- The API client. `σ` is the state of everything behind the client (the
remote system, the network), `ρ` the Go type the response body is decoded
into. `newRequest` is `client.NewRequest(method, endpoint, nil)`; `exec` is
`client.Do(req, v)`: transport, status check and JSON decoding, any of which
may fail with an error. -/
structure Client (σ ρ : Type) where
  newRequest : σ → String → String → Except Error Request × σ
  exec : σ → Request → Except Error ρ × σ

/-- What the hydrate functions need from the execution context: `connect`
(defined elsewhere in the package) and the package's error classifier
`isNotFoundError` (defined elsewhere in the package). -/
structure Env (σ ρ : Type) where
  connect : Except Error (Client σ ρ)
  isNotFoundError : Error → Bool

/-- The observable record of one hydrate call: the state of the remote
side, the endpoints passed to `NewRequest` (`built`), the requests passed to
`Do` (`sent`) and the rows handed to `StreamListItem` (`rows`), each oldest
first. -/
structure Run (σ : Type) where
  server : σ
  built : List String
  sent : List Request
  rows : List Epic

/-- A fresh record over a given remote state. -/
def Run.init {σ : Type} (s : σ) : Run σ := ⟨s, [], [], []⟩

/-- The Go return pair `(interface{}, error)` of a hydrate function. -/
structure HydrateResult where
  item : Option Epic
  err : Option Error
deriving DecidableEq, Repr

/-! ## `listEpics` -/

/-- The `fmt.Sprintf` of `listEpics`: `%d` renders a Go `int` in decimal. -/
def listEndpoint (last maxResults : Int) : String :=
  "/rest/agile/1.0/epic/search?startAt=" ++ toString last ++
    "&maxResults=" ++ toString maxResults

/-- The `for` loop of `listEpics`, one iteration per unit of fuel. The first
component is `none` when the loop is still running after `fuel` iterations. -/
def listEpicsLoop {σ : Type} (client : Client σ ListEpicResult) (maxResults : Int) :
    Nat → Int → Run σ → Option HydrateResult × Run σ
  | 0, _, st => (none, st)
  | fuel + 1, last, st =>
    let apiEndpoint := listEndpoint last maxResults
    let st1 : Run σ := { st with built := st.built ++ [apiEndpoint] }
    match client.newRequest st1.server "GET" apiEndpoint with
    | (.error err, sv) => (some ⟨none, some err⟩, { st1 with server := sv })
    | (.ok req, sv) =>
      let st2 : Run σ := { st1 with server := sv, sent := st1.sent ++ [req] }
      match client.exec st2.server req with
      | (.error err, sv2) => (some ⟨none, some err⟩, { st2 with server := sv2 })
      | (.ok listResult, sv2) =>
        let st3 : Run σ :=
          { st2 with server := sv2, rows := st2.rows ++ listResult.values }
        let next := addInt listResult.startAt (listResult.values.length : Int)
        if listResult.isLast then (some ⟨none, none⟩, st3)
        else listEpicsLoop client maxResults fuel next st3

/-- The hydrate function `listEpics`. -/
def listEpics {σ : Type} (env : Env σ ListEpicResult) (fuel : Nat) (st : Run σ) :
    Option HydrateResult × Run σ :=
  match env.connect with
  | .error err => (some ⟨none, some err⟩, st)
  | .ok client => listEpicsLoop client 1000 fuel 0 st

/-! ## `getEpic` -/

/-- Go `proto.QualValue`, restricted to the value kinds with an exact model. -/
inductive QualValue where
  | stringValue (v : String)
  | int64Value (v : Int)
  | boolValue (v : Bool)
deriving DecidableEq, Repr

/-- The part of `plugin.QueryData` the code reads: the map `KeyColumnQuals`
(a missing key yields the nil pointer, here `none`). -/
structure QueryData where
  keyColumnQuals : String → Option QualValue

/-- The nil-safe getter `GetInt64Value`: `0` unless the value is an int64. -/
def getInt64Value : Option QualValue → Int
  | some (.int64Value v) => v
  | _ => 0

/-- The nil-safe getter `GetStringValue`: empty unless the value is a string. -/
def getStringValue : Option QualValue → String
  | some (.stringValue v) => v
  | _ => ""

/-- Go `strings.Contains` on the characters of the two strings. -/
def containsChars : List Char → List Char → Bool
  | [], sub => sub.isEmpty
  | c :: cs, sub => sub.isPrefixOf (c :: cs) || containsChars cs sub

/-- Go `strings.Contains(s, substr)`. -/
def stringsContains (s substr : String) : Bool :=
  containsChars s.toList substr.toList

/-- The endpoint chosen by `getEpic` from the two qualifier values. -/
def epicEndpoint (epicId : Int) (epicKey : String) : String :=
  if epicKey ≠ "" then "/rest/agile/1.0/epic/" ++ epicKey
  else "/rest/agile/1.0/epic/" ++ toString epicId

/-- The hydrate function `getEpic`. -/
def getEpic {σ : Type} (env : Env σ Epic) (d : QueryData) (st : Run σ) :
    HydrateResult × Run σ :=
  let epicId := getInt64Value (d.keyColumnQuals "id")
  let epicKey := getStringValue (d.keyColumnQuals "key")
  let apiEndpoint := epicEndpoint epicId epicKey
  match env.connect with
  | .error err => (⟨none, some err⟩, st)
  | .ok client =>
    let st1 : Run σ := { st with built := st.built ++ [apiEndpoint] }
    match client.newRequest st1.server "GET" apiEndpoint with
    | (.error err, sv) => (⟨none, some err⟩, { st1 with server := sv })
    | (.ok req, sv) =>
      let st2 : Run σ := { st1 with server := sv, sent := st1.sent ++ [req] }
      match client.exec st2.server req with
      | (.error err, sv2) =>
        if env.isNotFoundError err || stringsContains err.message "400" then
          (⟨none, none⟩, { st2 with server := sv2 })
        else (⟨none, some err⟩, { st2 with server := sv2 })
      | (.ok epic, sv2) => (⟨some epic, none⟩, { st2 with server := sv2 })

/-! ## Simulated remote systems -/

/-- One scripted answer of the remote side to one request of `listEpics`:
building the request fails, performing it fails, or a page comes back. -/
inductive Reply (ρ : Type) where
  | buildFails (e : Error)
  | doFails (e : Error)
  | page (r : ρ)

/-- The error a scripted client reports once its script is used up. -/
def scriptExhausted : Error := ⟨"no scripted reply left", none⟩

/-- A client that answers the j-th request with the j-th entry of a script.
Its state is the part of the script not yet consumed. -/
def scriptClient (ρ : Type) : Client (List (Reply ρ)) ρ where
  newRequest := fun s method endpoint =>
    match s with
    | .buildFails e :: rest => (.error e, rest)
    | _ => (.ok ⟨method, endpoint⟩, s)
  exec := fun s _ =>
    match s with
    | .page r :: rest => (.ok r, rest)
    | .doFails e :: rest => (.error e, rest)
    | .buildFails e :: rest => (.error e, rest)
    | [] => (.error scriptExhausted, [])

/-- The execution context around a scripted client. -/
def scriptEnv (ρ : Type) : Env (List (Reply ρ)) ρ where
  connect := .ok (scriptClient ρ)
  isNotFoundError := fun e => e.statusCode == some 404

/-- Removes a leading sequence of characters, when present. -/
def stripLeading : List Char → List Char → Option (List Char)
  | [], cs => some cs
  | _ :: _, [] => none
  | p :: ps, c :: cs => if p = c then stripLeading ps cs else none

/-- Value of a sequence of decimal digits read left to right. -/
def parseDigits (cs : List Char) : Nat :=
  cs.foldl (fun acc c => acc * 10 + (c.toNat - 48)) 0

/-- The `startAt` query parameter of an epic-search URL, as the simulated
server reads it: the decimal digits that follow `startAt=`. -/
def parseStartAt (url : String) : Option Nat :=
  match stripLeading "/rest/agile/1.0/epic/search?startAt=".toList url.toList with
  | none => none
  | some rest =>
    let ds := rest.takeWhile Char.isDigit
    if ds.isEmpty then none else some (parseDigits ds)

/-- The error the simulated servers give to a URL they cannot read. -/
def badRequest : Error := ⟨"bad request", none⟩

/-- A simulated server holding the epics `L` and serving pages of `P` items:
a request with `startAt=s` is answered with `startAt=s`, the items
`L[s .. s+P)` and `isLast = (s+P >= N)`. -/
def pagingClient (L : List Epic) (P : Nat) : Client Unit ListEpicResult where
  newRequest := fun s method endpoint => (.ok ⟨method, endpoint⟩, s)
  exec := fun s req =>
    match parseStartAt req.url with
    | none => (.error badRequest, s)
    | some c =>
      (.ok { maxResults := P, startAt := c, total := L.length,
             isLast := decide (c + P ≥ L.length),
             values := (L.drop c).take P }, s)

/-- The execution context around the simulated paging server. -/
def pagingEnv (L : List Epic) (P : Nat) : Env Unit ListEpicResult where
  connect := .ok (pagingClient L P)
  isNotFoundError := fun e => e.statusCode == some 404

/-- A simulated server that answers every request at cursor `c` with
`startAt=c`, no values and `isLast=false`. -/
def emptyPageClient : Client Unit ListEpicResult where
  newRequest := fun s method endpoint => (.ok ⟨method, endpoint⟩, s)
  exec := fun s req =>
    match parseStartAt req.url with
    | none => (.error badRequest, s)
    | some c =>
      (.ok { maxResults := 1000, startAt := c, total := 0, isLast := false,
             values := [] }, s)

/-- A client for `getEpic` whose single request is answered by a fixed
outcome. -/
def fixedClient (outcome : Except Error Epic) : Client Unit Epic where
  newRequest := fun s method endpoint => (.ok ⟨method, endpoint⟩, s)
  exec := fun s _ => (outcome, s)

/-- The execution context around `fixedClient`, with a classifier that
takes an error for not-found when it stems from a 404 response. -/
def fixedEnv (outcome : Except Error Epic) : Env Unit Epic where
  connect := .ok (fixedClient outcome)
  isNotFoundError := fun e => e.statusCode == some 404

/-- A client for `getEpic` whose `NewRequest` rejects the endpoint with the
given error, as the URL parser does on an invalid escape. -/
def rejectingClient (e : Error) : Client Unit Epic where
  newRequest := fun s _ _ => (.error e, s)
  exec := fun s _ => (.error e, s)

/-- The execution context around `rejectingClient`. -/
def rejectingEnv (e : Error) : Env Unit Epic where
  connect := .ok (rejectingClient e)
  isNotFoundError := fun x => x.statusCode == some 404

/-- An execution context in which `connect` fails with the given error. -/
def disconnectedEnv (e : Error) : Env Unit Epic where
  connect := .error e
  isNotFoundError := fun x => x.statusCode == some 404

/-! ## The schema descriptor -/

/-- Go `proto.ColumnType`, the members the table uses. -/
inductive ColumnType where
  | INT
  | STRING
  | BOOL
  | JSON
deriving DecidableEq, Repr

/-- A column transform of the plugin SDK: `transform.FromField(name)`. -/
inductive Transform where
  | fromField (fieldName : String)
deriving DecidableEq, Repr

/-- Go `plugin.Column`. -/
structure Column where
  name : String
  description : String
  type : ColumnType
  transform : Option Transform
deriving DecidableEq, Repr

/-- Go `plugin.Table`, without the hydrate function pointers: the name, the
description, the key columns of the `Get` configuration (`AnyColumn`) and
the columns. -/
structure Table where
  name : String
  description : String
  getKeyColumns : List String
  columns : List Column
deriving DecidableEq, Repr

/-- The table definition `tableEpic`. `ColumnDescriptionTitle` is a constant
declared elsewhere in the package. -/
def tableEpic (ColumnDescriptionTitle : String) : Table :=
  { name := "jira_epic"
    description := "An epic is essentially a large user story that can be broken down into a number of smaller stories. An epic can span more than one project."
    getKeyColumns := ["id", "key"]
    columns := [
      { name := "id", description := "The id of the epic.",
        type := .INT, transform := none },
      { name := "name", description := "The name of the epic.",
        type := .STRING, transform := none },
      { name := "key", description := "The key of the epic.",
        type := .STRING, transform := none },
      { name := "done", description := "Indicates the status of the epic.",
        type := .BOOL, transform := none },
      { name := "self", description := "The URL of the epic details.",
        type := .STRING, transform := none },
      { name := "summary", description := "Description of the epic.",
        type := .STRING, transform := none },
      { name := "color", description := "Label colour details for the epic.",
        type := .JSON, transform := none },
      { name := "title", description := ColumnDescriptionTitle,
        type := .STRING, transform := some (.fromField "Name") } ] }

/-- A column value. -/
inductive Value where
  | int (v : Int)
  | str (v : String)
  | bool (v : Bool)
  | color (v : Color)
deriving DecidableEq, Repr

/-- The Go field of an `Epic` with the given name, as `FromField` reads it. -/
def Epic.field (e : Epic) (fieldName : String) : Option Value :=
  if fieldName = "Color" then some (.color e.color)
  else if fieldName = "Done" then some (.bool e.done)
  else if fieldName = "Id" then some (.int e.id)
  else if fieldName = "Key" then some (.str e.key)
  else if fieldName = "Name" then some (.str e.name)
  else if fieldName = "Self" then some (.str e.self)
  else if fieldName = "Summary" then some (.str e.summary)
  else none

/-- Modelled from the spec: the transform of a column that declares none is
set plugin-wide, outside this file; the spec's data model gives each such
column the Epic attribute of the same name, that is the Go field whose name
is the column name with its first letter in upper case. -/
def defaultTransform (columnName : String) : Transform :=
  .fromField columnName.capitalize

/-- The value of the column named `col` for the row `e`. -/
def columnValue (t : Table) (col : String) (e : Epic) : Option Value :=
  match t.columns.find? (fun c => c.name == col) with
  | none => none
  | some c =>
    match c.transform.getD (defaultTransform c.name) with
    | .fromField f => e.field f


/-! ## Auxiliary definitions used in the statements -/

/-- The cursors at which the loop of `listEpics` issues its requests while it
receives the pages `pages`, none of them last, starting from cursor `last`. -/
def cursorsOver : Int → List ListEpicResult → List Int
  | _, [] => []
  | last, r :: rs => last :: cursorsOver (addInt r.startAt (r.values.length : Int)) rs

/-- The cursor the loop of `listEpics` holds after it has received the pages
`pages`, starting from cursor `last`. -/
def cursorAfter : Int → List ListEpicResult → Int
  | last, [] => last
  | _, r :: rs => cursorAfter (addInt r.startAt (r.values.length : Int)) rs

/-- The query data of a lookup with the given `id` and `key` qualifiers, each
present or absent. -/
def quals (id : Option Int) (key : Option String) : QueryData where
  keyColumnQuals := fun column =>
    if column = "id" then id.map QualValue.int64Value
    else if column = "key" then key.map QualValue.stringValue
    else none

/-- The epic of the spec's scenario, used to instantiate the theorems. -/
def sampleEpic : Epic :=
  ⟨⟨"blue"⟩, false, 10, "PROJ-1", "Launch", "https://x/epic/10", "s"⟩

/-- Sample rows used to instantiate the theorems. -/
def sampleEpics : List Epic :=
  [ sampleEpic,
    ⟨⟨"red"⟩, true, 11, "PROJ-2", "Land", "https://x/epic/11", "t"⟩,
    ⟨⟨"green"⟩, false, 12, "PROJ-3", "Orbit", "https://x/epic/12", "u"⟩ ]

/-! ## Decimal rendering and the simulated server's reading of it -/

theorem wrapInt_of_inRange (x : Int) (h : InIntRange x) : wrapInt x = x := by
  unfold InIntRange minInt maxInt intSize at h
  unfold wrapInt intSize
  norm_num at h ⊢
  omega

theorem toDigitsCore_acc (fuel : Nat) : ∀ (n : Nat) (ds : List Char),
    Nat.toDigitsCore 10 fuel n ds = Nat.toDigitsCore 10 fuel n [] ++ ds := by
  induction fuel with
  | zero => intro n ds; simp [Nat.toDigitsCore]
  | succ f ih =>
    intro n ds
    simp only [Nat.toDigitsCore]
    by_cases h : n / 10 = 0
    · simp [h]
    · simp only [h, if_false]
      rw [ih (n / 10) ((n % 10).digitChar :: ds), ih (n / 10) [(n % 10).digitChar]]
      simp

theorem digitChar_isDigit (d : Nat) (h : d < 10) :
    d.digitChar.isDigit = true ∧ d.digitChar.toNat - 48 = d := by
  interval_cases d <;> decide

theorem parseDigits_snoc (cs : List Char) (c : Char) :
    parseDigits (cs ++ [c]) = parseDigits cs * 10 + (c.toNat - 48) := by
  simp [parseDigits, List.foldl_append]

theorem toDigitsCore_spec (fuel : Nat) : ∀ n : Nat, n < fuel →
    (∀ c ∈ Nat.toDigitsCore 10 fuel n [], c.isDigit = true) ∧
    parseDigits (Nat.toDigitsCore 10 fuel n []) = n ∧
    Nat.toDigitsCore 10 fuel n [] ≠ [] := by
  induction fuel with
  | zero => intro n h; omega
  | succ f ih =>
    intro n hn
    simp only [Nat.toDigitsCore]
    by_cases h : n / 10 = 0
    · have hlt : n < 10 := by omega
      have hd := digitChar_isDigit (n % 10) (Nat.mod_lt _ (by decide))
      simp only [h, if_true]
      refine ⟨?_, ?_, by simp⟩
      · intro c hc
        simp at hc
        rw [hc]; exact hd.1
      · simp only [parseDigits, List.foldl]
        rw [hd.2]; omega
    · simp only [h, if_false]
      rw [toDigitsCore_acc]
      have hlt : n / 10 < f := by omega
      obtain ⟨h1, h2, h3⟩ := ih (n / 10) hlt
      have hd := digitChar_isDigit (n % 10) (Nat.mod_lt _ (by decide))
      refine ⟨?_, ?_, by simp⟩
      · intro c hc
        rw [List.mem_append] at hc
        rcases hc with hc | hc
        · exact h1 c hc
        · simp at hc
          rw [hc]; exact hd.1
      · rw [parseDigits_snoc, h2, hd.2]; omega

theorem stripLeading_append (p rest : List Char) :
    stripLeading p (p ++ rest) = some rest := by
  induction p with
  | nil => cases rest <;> simp [stripLeading]
  | cons c cs ih => simp [stripLeading, ih]

theorem parseStartAt_listEndpoint (s : Nat) (m : Int) :
    parseStartAt (listEndpoint (s : Int) m) = some s := by
  have hs : toString ((s : Nat) : Int) = (Nat.toDigits 10 s).asString := rfl
  obtain ⟨h1, h2, h3⟩ := toDigitsCore_spec (s + 1) s (Nat.lt_succ_self s)
  have hd : Nat.toDigits 10 s = Nat.toDigitsCore 10 (s + 1) s [] := rfl
  rw [← hd] at h1 h2 h3
  unfold parseStartAt listEndpoint
  rw [hs]
  simp only [String.toList, String.data_append, List.append_assoc, List.asString]
  rw [stripLeading_append]
  simp only []
  have hamp : ("&maxResults=".data ++ (toString m).data) = '&' :: ("maxResults=".data ++ (toString m).data) := rfl
  rw [hamp, List.takeWhile_append_of_pos h1]
  have : List.takeWhile Char.isDigit ('&' :: ("maxResults=".data ++ (toString m).data)) = [] := by
    rw [List.takeWhile_cons]
    simp
  rw [this, List.append_nil]
  simp [h2, h3]


/-! ## Pagination against the simulated paging server -/

theorem pagingClient_newRequest (L : List Epic) (P : Nat) (s : Unit) (m e : String) :
    (pagingClient L P).newRequest s m e = (.ok ⟨m, e⟩, s) := rfl

theorem pagingClient_exec (L : List Epic) (P : Nat) (s : Unit) (m : String) (c : Nat)
    (mr : Int) :
    (pagingClient L P).exec s ⟨m, listEndpoint (c : Int) mr⟩ =
      (.ok { maxResults := P, startAt := c, total := L.length,
             isLast := decide (c + P ≥ L.length),
             values := (L.drop c).take P }, s) := by
  simp [pagingClient, parseStartAt_listEndpoint]

theorem pagingLoop_complete (L : List Epic) (P : Nat) (hP : 1 ≤ P)
    (hN : (L.length : Int) ≤ maxInt) (fuel : Nat) :
    ∀ (s : Nat) (st : Run Unit), s ≤ L.length → L.length - s < fuel →
      (listEpicsLoop (pagingClient L P) 1000 fuel (s : Int) st).1 = some ⟨none, none⟩ ∧
      (listEpicsLoop (pagingClient L P) 1000 fuel (s : Int) st).2.rows
        = st.rows ++ L.drop s := by
  induction fuel with
  | zero => intro s st _ h; omega
  | succ f ih =>
    intro s st hs hf
    simp only [listEpicsLoop, pagingClient_newRequest, pagingClient_exec]
    by_cases hlast : s + P ≥ L.length
    · have htake : List.take P (List.drop s L) = List.drop s L := by
        apply List.take_of_length_le
        simp; omega
      simp [hlast, htake]
    · have hlen : (List.take P (List.drop s L)).length = P := by
        simp; omega
      have hnext : addInt (s : Int) ((List.take P (List.drop s L)).length : Int)
          = ((s + P : Nat) : Int) := by
        rw [hlen]
        unfold addInt
        rw [wrapInt_of_inRange]
        · push_cast; rfl
        · unfold InIntRange minInt maxInt intSize at *
          norm_num at hN ⊢
          omega
      simp only [hlast, decide_False, Bool.false_eq_true, if_false]
      rw [hnext]
      obtain ⟨h1, h2⟩ := ih (s + P)
        { server := st.server, built := st.built ++ [listEndpoint (s : Int) 1000],
          sent := st.sent ++ [⟨"GET", listEndpoint (s : Int) 1000⟩],
          rows := st.rows ++ List.take P (List.drop s L) } (by omega) (by omega)
      refine ⟨h1, ?_⟩
      rw [h2]
      simp only [List.append_assoc]
      have hdrop : List.drop (s + P) L = List.drop P (List.drop s L) := by
        simp [List.drop_drop, Nat.add_comm]
      rw [hdrop, List.take_append_drop]

/-- C1. Pagination completeness of `listEpics`: against the simulated server
that holds the epics `L` and answers a request with `startAt=s` by
`startAt=s`, the values `L[s .. s+P)` and `isLast = (s+P >= N)`, with page
size `P >= 1`, `listEpics` returns `(nil, nil)` once it is given more than
`N` loop iterations, and the rows it has streamed are exactly `L`: every
item once, in the original order. (`N` fits a Go `int`, as the length of a
Go slice does.) -/
theorem listEpics_pagination_complete (L : List Epic) (P : Nat) (hP : 1 ≤ P)
    (hN : (L.length : Int) ≤ maxInt) (fuel : Nat) (hfuel : L.length < fuel) :
    (listEpics (pagingEnv L P) fuel (Run.init ())).1 = some ⟨none, none⟩ ∧
    (listEpics (pagingEnv L P) fuel (Run.init ())).2.rows = L := by
  have h := pagingLoop_complete L P hP hN fuel 0 (Run.init ()) (Nat.zero_le _) (by omega)
  simpa [listEpics, pagingEnv, Run.init] using h

theorem listEpics_pagination_complete_witness :
    (1 ≤ 2 ∧ (sampleEpics.length : Int) ≤ maxInt ∧ sampleEpics.length < 4) ∧
    (listEpics (pagingEnv sampleEpics 2) 4 (Run.init ())).1 = some ⟨none, none⟩ ∧
    (listEpics (pagingEnv sampleEpics 2) 4 (Run.init ())).2.rows = sampleEpics :=
  ⟨⟨by decide, by decide, by decide⟩,
    listEpics_pagination_complete sampleEpics 2 (by decide) (by decide) 4 (by decide)⟩


/-! ## The loop against a scripted remote side -/

theorem scriptClient_newRequest_page (ρ : Type) (r : ρ) (rest : List (Reply ρ))
    (m e : String) :
    (scriptClient ρ).newRequest (Reply.page r :: rest) m e
      = (.ok ⟨m, e⟩, Reply.page r :: rest) := rfl

theorem scriptClient_newRequest_doFails (ρ : Type) (err : Error) (rest : List (Reply ρ))
    (m e : String) :
    (scriptClient ρ).newRequest (Reply.doFails err :: rest) m e
      = (.ok ⟨m, e⟩, Reply.doFails err :: rest) := rfl

theorem scriptClient_newRequest_buildFails (ρ : Type) (err : Error)
    (rest : List (Reply ρ)) (m e : String) :
    (scriptClient ρ).newRequest (Reply.buildFails err :: rest) m e
      = (.error err, rest) := rfl

theorem scriptClient_exec_page (ρ : Type) (r : ρ) (rest : List (Reply ρ))
    (req : Request) :
    (scriptClient ρ).exec (Reply.page r :: rest) req = (.ok r, rest) := rfl

theorem scriptClient_exec_doFails (ρ : Type) (err : Error) (rest : List (Reply ρ))
    (req : Request) :
    (scriptClient ρ).exec (Reply.doFails err :: rest) req = (.error err, rest) := rfl

theorem scriptLoop_pages (m : Int) (pre : List ListEpicResult)
    (hpre : ∀ r ∈ pre, r.isLast = false) (rest : List (Reply ListEpicResult)) (k : Nat) :
    ∀ (last : Int) (st : Run (List (Reply ListEpicResult))),
      st.server = pre.map Reply.page ++ rest →
      listEpicsLoop (scriptClient ListEpicResult) m (pre.length + k) last st =
        listEpicsLoop (scriptClient ListEpicResult) m k (cursorAfter last pre)
          { server := rest,
            built := st.built ++ (cursorsOver last pre).map (fun c => listEndpoint c m),
            sent := st.sent ++
              (cursorsOver last pre).map (fun c => ⟨"GET", listEndpoint c m⟩),
            rows := st.rows ++ pre.flatMap (fun r => r.values) } := by
  induction pre with
  | nil =>
    intro last st hst
    simp at hst
    cases st
    simp_all [cursorAfter, cursorsOver]
  | cons r rs ih =>
    intro last st hst
    have hr : r.isLast = false := hpre r (List.mem_cons_self _ _)
    have hrs : ∀ x ∈ rs, x.isLast = false := fun x hx => hpre x (List.mem_cons_of_mem _ hx)
    have hfuel : (r :: rs).length + k = (rs.length + k) + 1 := by simp; omega
    rw [hfuel]
    simp only [List.map_cons, List.cons_append] at hst
    simp only [listEpicsLoop, hst, scriptClient_newRequest_page, scriptClient_exec_page, hr]
    rw [if_neg (by simp), ih hrs]
    · simp [cursorAfter, cursorsOver, List.flatMap_cons]
    · rfl


theorem cursorsOver_length (pre : List ListEpicResult) :
    ∀ last : Int, (cursorsOver last pre).length = pre.length := by
  induction pre with
  | nil => intro last; rfl
  | cons r rs ih => intro last; simp [cursorsOver, ih]

theorem scriptLoop_last (m : Int) (p : ListEpicResult) (hp : p.isLast = true)
    (post : List (Reply ListEpicResult)) (k : Nat) (last : Int)
    (st : Run (List (Reply ListEpicResult))) (hst : st.server = Reply.page p :: post) :
    listEpicsLoop (scriptClient ListEpicResult) m (k + 1) last st =
      (some ⟨none, none⟩,
        { server := post, built := st.built ++ [listEndpoint last m],
          sent := st.sent ++ [⟨"GET", listEndpoint last m⟩],
          rows := st.rows ++ p.values }) := by
  simp only [listEpicsLoop, hst, scriptClient_newRequest_page, scriptClient_exec_page, hp]
  rfl

theorem scriptLoop_doFails (m : Int) (e : Error)
    (post : List (Reply ListEpicResult)) (k : Nat) (last : Int)
    (st : Run (List (Reply ListEpicResult))) (hst : st.server = Reply.doFails e :: post) :
    listEpicsLoop (scriptClient ListEpicResult) m (k + 1) last st =
      (some ⟨none, some e⟩,
        { server := post, built := st.built ++ [listEndpoint last m],
          sent := st.sent ++ [⟨"GET", listEndpoint last m⟩],
          rows := st.rows }) := by
  simp only [listEpicsLoop, hst, scriptClient_newRequest_doFails, scriptClient_exec_doFails]

theorem scriptLoop_buildFails (m : Int) (e : Error)
    (post : List (Reply ListEpicResult)) (k : Nat) (last : Int)
    (st : Run (List (Reply ListEpicResult))) (hst : st.server = Reply.buildFails e :: post) :
    listEpicsLoop (scriptClient ListEpicResult) m (k + 1) last st =
      (some ⟨none, some e⟩,
        { server := post, built := st.built ++ [listEndpoint last m],
          sent := st.sent, rows := st.rows }) := by
  simp only [listEpicsLoop, hst, scriptClient_newRequest_buildFails]

theorem listEpics_script (fuel : Nat) (script : List (Reply ListEpicResult)) :
    listEpics (scriptEnv ListEpicResult) fuel (Run.init script)
      = listEpicsLoop (scriptClient ListEpicResult) 1000 fuel 0 (Run.init script) := rfl

/-- The complete outcome of `listEpics` on a script whose first last page is
preceded by the pages `pre`. -/
theorem listEpics_script_last (pre : List ListEpicResult) (p : ListEpicResult)
    (post : List (Reply ListEpicResult)) (hpre : ∀ r ∈ pre, r.isLast = false)
    (hp : p.isLast = true) (fuel : Nat) (hfuel : pre.length < fuel) :
    listEpics (scriptEnv ListEpicResult) fuel
        (Run.init (pre.map Reply.page ++ Reply.page p :: post)) =
      (some ⟨none, none⟩,
        { server := post,
          built := (cursorsOver 0 pre).map (fun c => listEndpoint c 1000)
            ++ [listEndpoint (cursorAfter 0 pre) 1000],
          sent := (cursorsOver 0 pre).map (fun c => ⟨"GET", listEndpoint c 1000⟩)
            ++ [⟨"GET", listEndpoint (cursorAfter 0 pre) 1000⟩],
          rows := pre.flatMap (fun r => r.values) ++ p.values }) := by
  obtain ⟨k, rfl⟩ : ∃ k, fuel = pre.length + (k + 1) := ⟨fuel - pre.length - 1, by omega⟩
  rw [listEpics_script, scriptLoop_pages 1000 pre hpre (Reply.page p :: post) (k + 1) 0 _ rfl,
    scriptLoop_last 1000 p hp post k _ _ rfl]
  simp [Run.init]

/-- The complete outcome of `listEpics` on a script whose first failing reply
`f` is preceded by the pages `pre`, none of them last. -/
theorem listEpics_script_fails (pre : List ListEpicResult) (e : Error)
    (f : Reply ListEpicResult) (hf : f = Reply.buildFails e ∨ f = Reply.doFails e)
    (post : List (Reply ListEpicResult)) (hpre : ∀ r ∈ pre, r.isLast = false)
    (fuel : Nat) (hfuel : pre.length < fuel) :
    ∃ sent,
    listEpics (scriptEnv ListEpicResult) fuel
        (Run.init (pre.map Reply.page ++ f :: post)) =
      (some ⟨none, some e⟩,
        { server := post,
          built := (cursorsOver 0 pre).map (fun c => listEndpoint c 1000)
            ++ [listEndpoint (cursorAfter 0 pre) 1000],
          sent := sent,
          rows := pre.flatMap (fun r => r.values) }) := by
  obtain ⟨k, rfl⟩ : ∃ k, fuel = pre.length + (k + 1) := ⟨fuel - pre.length - 1, by omega⟩
  rcases hf with rfl | rfl
  · refine ⟨(cursorsOver 0 pre).map (fun c => ⟨"GET", listEndpoint c 1000⟩), ?_⟩
    rw [listEpics_script,
      scriptLoop_pages 1000 pre hpre (Reply.buildFails e :: post) (k + 1) 0 _ rfl,
      scriptLoop_buildFails 1000 e post k _ _ rfl]
    simp [Run.init]
  · refine ⟨(cursorsOver 0 pre).map (fun c => ⟨"GET", listEndpoint c 1000⟩)
      ++ [⟨"GET", listEndpoint (cursorAfter 0 pre) 1000⟩], ?_⟩
    rw [listEpics_script,
      scriptLoop_pages 1000 pre hpre (Reply.doFails e :: post) (k + 1) 0 _ rfl,
      scriptLoop_doFails 1000 e post k _ _ rfl]
    simp [Run.init]


theorem loop_built_form {σ : Type} (client : Client σ ListEpicResult) (m : Int)
    (fuel : Nat) : ∀ (last : Int) (st : Run σ), ∃ cs : List Int,
      (listEpicsLoop client m fuel last st).2.built
        = st.built ++ cs.map (fun c => listEndpoint c m) ∧
      (0 < fuel → cs.head? = some last) := by
  induction fuel with
  | zero => intro last st; exact ⟨[], by simp [listEpicsLoop], by simp⟩
  | succ f ih =>
    intro last st
    simp only [listEpicsLoop]
    rcases hnr : client.newRequest st.server "GET" (listEndpoint last m) with ⟨a, sv⟩
    cases a with
    | error err => exact ⟨[last], by simp, by simp⟩
    | ok req =>
      simp only []
      rcases hex : client.exec sv req with ⟨b, sv2⟩
      cases b with
      | error err => exact ⟨[last], by simp, by simp⟩
      | ok r =>
        simp only []
        by_cases hl : r.isLast = true
        · exact ⟨[last], by simp [hl], by simp⟩
        · obtain ⟨cs, h1, _⟩ := ih (addInt r.startAt (r.values.length : Int))
            { server := sv2, built := st.built ++ [listEndpoint last m],
              sent := st.sent ++ [req], rows := st.rows ++ r.values }
          refine ⟨last :: cs, ?_, by simp⟩
          simp only [hl, if_false]
          rw [if_neg (by simp), h1]
          simp

theorem cursorAfter_snoc (pre : List ListEpicResult) (r : ListEpicResult) :
    ∀ last : Int, cursorAfter last (pre ++ [r])
      = addInt r.startAt (r.values.length : Int) := by
  induction pre with
  | nil => intro last; rfl
  | cons x xs ih => intro last; exact ih _

/-! ## Claims about `listEpics` on a sequence of replies -/

/-- C3. Termination of `listEpics` at the last page: when the replies are
the successful pages `pre` (none last), then a page `p` with `isLast=true`,
then anything, `listEpics` returns `(nil, nil)` as soon as it is allowed more
than `pre.length` iterations; it has then issued exactly `pre.length + 1`
requests (built and sent), streamed the values of `pre` and of `p` in order,
and consumed no reply after `p`. -/
theorem listEpics_stops_at_last_page (pre : List ListEpicResult) (p : ListEpicResult)
    (post : List (Reply ListEpicResult)) (hpre : ∀ r ∈ pre, r.isLast = false)
    (hp : p.isLast = true) (fuel : Nat) (hfuel : pre.length < fuel) :
    (listEpics (scriptEnv ListEpicResult) fuel
      (Run.init (pre.map Reply.page ++ Reply.page p :: post))).1 = some ⟨none, none⟩ ∧
    (listEpics (scriptEnv ListEpicResult) fuel
      (Run.init (pre.map Reply.page ++ Reply.page p :: post))).2.built.length
        = pre.length + 1 ∧
    (listEpics (scriptEnv ListEpicResult) fuel
      (Run.init (pre.map Reply.page ++ Reply.page p :: post))).2.sent.length
        = pre.length + 1 ∧
    (listEpics (scriptEnv ListEpicResult) fuel
      (Run.init (pre.map Reply.page ++ Reply.page p :: post))).2.rows
        = (pre ++ [p]).flatMap (fun r => r.values) ∧
    (listEpics (scriptEnv ListEpicResult) fuel
      (Run.init (pre.map Reply.page ++ Reply.page p :: post))).2.server = post := by
  rw [listEpics_script_last pre p post hpre hp fuel hfuel]
  simp [cursorsOver_length]

theorem listEpics_stops_at_last_page_witness :
    ((∀ r ∈ [(⟨1000, 0, 3, false, sampleEpics.take 2⟩ : ListEpicResult)],
        r.isLast = false) ∧
      (⟨1000, 2, 3, true, sampleEpics.drop 2⟩ : ListEpicResult).isLast = true ∧
      [(⟨1000, 0, 3, false, sampleEpics.take 2⟩ : ListEpicResult)].length < 2) ∧
    (listEpics (scriptEnv ListEpicResult) 2
      (Run.init ([(⟨1000, 0, 3, false, sampleEpics.take 2⟩ : ListEpicResult)].map Reply.page
        ++ Reply.page ⟨1000, 2, 3, true, sampleEpics.drop 2⟩
          :: [Reply.page ⟨1000, 3, 3, true, []⟩]))).1 = some ⟨none, none⟩ :=
  ⟨⟨by decide, rfl, by decide⟩,
    (listEpics_stops_at_last_page [⟨1000, 0, 3, false, sampleEpics.take 2⟩]
      ⟨1000, 2, 3, true, sampleEpics.drop 2⟩ [Reply.page ⟨1000, 3, 3, true, []⟩]
      (by decide) rfl 2 (by decide)).1⟩

/-- C7. Failure of a page is fatal to `listEpics`: when the replies are the
successful pages `pre` (none last) and then a failure with error `e`, either
of building the request or of performing it, `listEpics` returns a nil
result and the error `e` itself; it has issued `pre.length + 1` requests and
consumed no reply after the failing one, however many iterations it is
allowed. The error `e` is arbitrary: not-found and "400" errors included. -/
theorem listEpics_fails_on_first_error (pre : List ListEpicResult) (e : Error)
    (f : Reply ListEpicResult) (hf : f = Reply.buildFails e ∨ f = Reply.doFails e)
    (post : List (Reply ListEpicResult)) (hpre : ∀ r ∈ pre, r.isLast = false)
    (fuel : Nat) (hfuel : pre.length < fuel) :
    (listEpics (scriptEnv ListEpicResult) fuel
      (Run.init (pre.map Reply.page ++ f :: post))).1 = some ⟨none, some e⟩ ∧
    (listEpics (scriptEnv ListEpicResult) fuel
      (Run.init (pre.map Reply.page ++ f :: post))).2.built.length = pre.length + 1 ∧
    (listEpics (scriptEnv ListEpicResult) fuel
      (Run.init (pre.map Reply.page ++ f :: post))).2.server = post := by
  obtain ⟨sent, h⟩ := listEpics_script_fails pre e f hf post hpre fuel hfuel
  rw [h]
  simp [cursorsOver_length]

theorem listEpics_fails_on_first_error_witness :
    ((Reply.doFails ⟨"404 Not Found", some 404⟩
        = (Reply.buildFails ⟨"404 Not Found", some 404⟩ : Reply ListEpicResult) ∨
      Reply.doFails ⟨"404 Not Found", some 404⟩
        = (Reply.doFails ⟨"404 Not Found", some 404⟩ : Reply ListEpicResult)) ∧
      (∀ r ∈ [(⟨1000, 0, 3, false, sampleEpics.take 2⟩ : ListEpicResult)],
        r.isLast = false) ∧
      [(⟨1000, 0, 3, false, sampleEpics.take 2⟩ : ListEpicResult)].length < 5) ∧
    (listEpics (scriptEnv ListEpicResult) 5
      (Run.init ([(⟨1000, 0, 3, false, sampleEpics.take 2⟩ : ListEpicResult)].map Reply.page
        ++ Reply.doFails ⟨"404 Not Found", some 404⟩
          :: [Reply.page ⟨1000, 2, 3, true, sampleEpics.drop 2⟩]))).1
      = some ⟨none, some ⟨"404 Not Found", some 404⟩⟩ :=
  ⟨⟨Or.inr rfl, by decide, by decide⟩,
    (listEpics_fails_on_first_error [⟨1000, 0, 3, false, sampleEpics.take 2⟩]
      ⟨"404 Not Found", some 404⟩ (Reply.doFails ⟨"404 Not Found", some 404⟩) (Or.inr rfl)
      [Reply.page ⟨1000, 2, 3, true, sampleEpics.drop 2⟩] (by decide) 5 (by decide)).1⟩

/-- C8, as stated, fails: after a first page of two rows and a failing second
request, `listEpics` returns the error and the two rows have been streamed. -/
theorem listEpics_rows_before_failure_counterexample :
    (listEpics (scriptEnv ListEpicResult) 2
      (Run.init [Reply.page ⟨1000, 0, 3, false, sampleEpics.take 2⟩,
        Reply.doFails ⟨"connection reset by peer", none⟩])).1
      = some ⟨none, some ⟨"connection reset by peer", none⟩⟩ ∧
    (listEpics (scriptEnv ListEpicResult) 2
      (Run.init [Reply.page ⟨1000, 0, 3, false, sampleEpics.take 2⟩,
        Reply.doFails ⟨"connection reset by peer", none⟩])).2.rows
      = sampleEpics.take 2 ∧
    sampleEpics.take 2 ≠ [] := by
  decide

/-- C8, amended. When a request of `listEpics` fails, the rows delivered to
the sink are exactly the values of the pages received before the failing
request, in order, and none from the failing request; so no row has been
delivered when it is the first request that fails. -/
theorem listEpics_rows_on_failure (pre : List ListEpicResult) (e : Error)
    (f : Reply ListEpicResult) (hf : f = Reply.buildFails e ∨ f = Reply.doFails e)
    (post : List (Reply ListEpicResult)) (hpre : ∀ r ∈ pre, r.isLast = false)
    (fuel : Nat) (hfuel : pre.length < fuel) :
    (listEpics (scriptEnv ListEpicResult) fuel
      (Run.init (pre.map Reply.page ++ f :: post))).2.rows
        = pre.flatMap (fun r => r.values) ∧
    (pre = [] → (listEpics (scriptEnv ListEpicResult) fuel
      (Run.init (pre.map Reply.page ++ f :: post))).2.rows = []) := by
  obtain ⟨sent, h⟩ := listEpics_script_fails pre e f hf post hpre fuel hfuel
  rw [h]
  refine ⟨rfl, ?_⟩
  intro hnil
  simp [hnil]

theorem listEpics_rows_on_failure_witness :
    ((Reply.buildFails ⟨"500 Internal Server Error", some 500⟩
        = (Reply.buildFails ⟨"500 Internal Server Error", some 500⟩ : Reply ListEpicResult) ∨
      Reply.buildFails ⟨"500 Internal Server Error", some 500⟩
        = (Reply.doFails ⟨"500 Internal Server Error", some 500⟩ : Reply ListEpicResult)) ∧
      (∀ r ∈ [(⟨1000, 0, 3, false, sampleEpics.take 2⟩ : ListEpicResult)],
        r.isLast = false) ∧
      [(⟨1000, 0, 3, false, sampleEpics.take 2⟩ : ListEpicResult)].length < 3) ∧
    (listEpics (scriptEnv ListEpicResult) 3
      (Run.init ([(⟨1000, 0, 3, false, sampleEpics.take 2⟩ : ListEpicResult)].map Reply.page
        ++ Reply.buildFails ⟨"500 Internal Server Error", some 500⟩ :: []))).2.rows
      = [(⟨1000, 0, 3, false, sampleEpics.take 2⟩ : ListEpicResult)].flatMap
          (fun r => r.values) :=
  ⟨⟨Or.inl rfl, by decide, by decide⟩,
    (listEpics_rows_on_failure [⟨1000, 0, 3, false, sampleEpics.take 2⟩]
      ⟨"500 Internal Server Error", some 500⟩
      (Reply.buildFails ⟨"500 Internal Server Error", some 500⟩) (Or.inl rfl)
      [] (by decide) 3 (by decide)).1⟩


theorem listEndpoint_thousand (c : Int) :
    listEndpoint c 1000
      = "/rest/agile/1.0/epic/search?startAt=" ++ toString c ++ "&maxResults=1000" := by
  have h1 : toString (1000 : Int) = "1000" := by decide
  have h2 : "&maxResults=" ++ "1000" = "&maxResults=1000" := by decide
  unfold listEndpoint
  rw [h1, String.append_assoc _ "&maxResults=" "1000", h2]

/-- C2, as stated, fails at the top of the range of Go `int`: a page that
carries `startAt = 9223372036854775807` and one value, not last, is followed
by a request at the wrapped cursor `-9223372036854775808`, not at
`9223372036854775808`. -/
theorem listEpics_cursor_wraps_counterexample :
    (listEpics (scriptEnv ListEpicResult) 2
      (Run.init [Reply.page ⟨1000, 9223372036854775807, 0, false, sampleEpics.take 1⟩,
        Reply.page ⟨1000, 0, 0, true, []⟩])).2.built
      = ["/rest/agile/1.0/epic/search?startAt=0&maxResults=1000",
         "/rest/agile/1.0/epic/search?startAt=-9223372036854775808&maxResults=1000"] ∧
    "/rest/agile/1.0/epic/search?startAt=" ++
        toString ((9223372036854775807 : Int) + ((sampleEpics.take 1).length : Int)) ++
        "&maxResults=1000"
      = "/rest/agile/1.0/epic/search?startAt=9223372036854775808&maxResults=1000" ∧
    InIntRange 9223372036854775807 := by
  decide

/-- C2, amended. Cursor advancement in `listEpics`: the first request is to
`/rest/agile/1.0/epic/search?startAt=0&maxResults=1000`, and after every page
that carries `startAt=S`, `k` values and `isLast=false`, with `S+k` within
the range of Go `int`, the next request is to
`/rest/agile/1.0/epic/search?startAt=<S+k>&maxResults=1000`, whatever the
pages before it carried; every request the function ever issues asks for
`maxResults=1000`. Here `r` is the page in question, received after the
pages `pre`, so its request is number `pre.length` of the log (from 0) and
the next one is number `pre.length + 1`. -/
theorem listEpics_cursor_advances (pre : List ListEpicResult) (r : ListEpicResult)
    (rest : List (Reply ListEpicResult)) (hpre : ∀ x ∈ pre, x.isLast = false)
    (hr : r.isLast = false)
    (hfit : InIntRange (r.startAt + (r.values.length : Int)))
    (fuel : Nat) (hfuel : pre.length + 1 < fuel) :
    (listEpics (scriptEnv ListEpicResult) fuel
        (Run.init (pre.map Reply.page ++ Reply.page r :: rest))).2.built.head?
      = some "/rest/agile/1.0/epic/search?startAt=0&maxResults=1000" ∧
    (listEpics (scriptEnv ListEpicResult) fuel
        (Run.init (pre.map Reply.page ++ Reply.page r :: rest))).2.built[pre.length + 1]?
      = some ("/rest/agile/1.0/epic/search?startAt=" ++
          toString (r.startAt + (r.values.length : Int)) ++ "&maxResults=1000") ∧
    (∀ ep ∈ (listEpics (scriptEnv ListEpicResult) fuel
        (Run.init (pre.map Reply.page ++ Reply.page r :: rest))).2.built,
      ∃ c : Int, ep = "/rest/agile/1.0/epic/search?startAt=" ++ toString c ++
        "&maxResults=1000") := by
  refine ⟨?_, ?_, ?_⟩
  · rw [listEpics_script]
    obtain ⟨cs, h1, h2⟩ := loop_built_form (scriptClient ListEpicResult) 1000 fuel 0
      (Run.init (pre.map Reply.page ++ Reply.page r :: rest))
    rw [h1]
    have hhead := h2 (by omega)
    cases cs with
    | nil => simp at hhead
    | cons c cs' =>
      simp only [List.head?_cons, Option.some.injEq] at hhead
      subst hhead
      simp only [Run.init, List.nil_append, List.map_cons, List.head?_cons,
        listEndpoint_thousand]
      decide
  · obtain ⟨k, rfl⟩ : ∃ k, fuel = (pre ++ [r]).length + (k + 1) :=
      ⟨fuel - pre.length - 2, by simp; omega⟩
    have hall : ∀ x ∈ pre ++ [r], x.isLast = false := by
      intro x hx
      rw [List.mem_append] at hx
      rcases hx with hx | hx
      · exact hpre x hx
      · simp at hx
        rw [hx]; exact hr
    have hscript : pre.map Reply.page ++ Reply.page r :: rest
        = (pre ++ [r]).map Reply.page ++ rest := by simp
    rw [listEpics_script, hscript,
      scriptLoop_pages 1000 (pre ++ [r]) hall rest (k + 1) 0 _ rfl]
    obtain ⟨cs, h1, h2⟩ := loop_built_form (scriptClient ListEpicResult) 1000 (k + 1)
      (cursorAfter 0 (pre ++ [r]))
      { server := rest,
        built := (Run.init ((pre ++ [r]).map Reply.page ++ rest)).built ++
          (cursorsOver 0 (pre ++ [r])).map (fun c => listEndpoint c 1000),
        sent := (Run.init ((pre ++ [r]).map Reply.page ++ rest)).sent ++
          (cursorsOver 0 (pre ++ [r])).map (fun c => ⟨"GET", listEndpoint c 1000⟩),
        rows := (Run.init ((pre ++ [r]).map Reply.page ++ rest)).rows ++
          (pre ++ [r]).flatMap (fun x => x.values) }
    rw [h1]
    have hhead := h2 (Nat.succ_pos k)
    cases cs with
    | nil => simp at hhead
    | cons c cs' =>
      simp only [List.head?_cons, Option.some.injEq] at hhead
      subst hhead
      have hlen : ((Run.init ((pre ++ [r]).map Reply.page ++ rest)).built ++
          (cursorsOver 0 (pre ++ [r])).map (fun c => listEndpoint c 1000)).length
            = pre.length + 1 := by
        simp [Run.init, cursorsOver_length]
      rw [List.getElem?_append_right (by rw [hlen]), hlen, Nat.sub_self]
      simp only [List.map_cons, List.getElem?_cons_zero]
      rw [cursorAfter_snoc, addInt, wrapInt_of_inRange _ hfit, listEndpoint_thousand]
  · intro ep hep
    rw [listEpics_script] at hep
    obtain ⟨cs, h1, _⟩ := loop_built_form (scriptClient ListEpicResult) 1000
      fuel 0 (Run.init (pre.map Reply.page ++ Reply.page r :: rest))
    rw [h1] at hep
    simp only [Run.init, List.nil_append, List.mem_map] at hep
    obtain ⟨c, _, rfl⟩ := hep
    exact ⟨c, listEndpoint_thousand c⟩

theorem listEpics_cursor_advances_witness :
    ((∀ x ∈ [(⟨1000, 9223372036854775807, 0, false, sampleEpics.take 1⟩ : ListEpicResult)],
        x.isLast = false) ∧
      (⟨1000, 5, 0, false, sampleEpics.take 2⟩ : ListEpicResult).isLast = false ∧
      InIntRange ((⟨1000, 5, 0, false, sampleEpics.take 2⟩ : ListEpicResult).startAt +
        ((⟨1000, 5, 0, false, sampleEpics.take 2⟩ : ListEpicResult).values.length : Int)) ∧
      [(⟨1000, 9223372036854775807, 0, false, sampleEpics.take 1⟩ : ListEpicResult)].length
        + 1 < 3) ∧
    (listEpics (scriptEnv ListEpicResult) 3
        (Run.init ([(⟨1000, 9223372036854775807, 0, false, sampleEpics.take 1⟩ :
          ListEpicResult)].map Reply.page ++
          Reply.page ⟨1000, 5, 0, false, sampleEpics.take 2⟩ :: []))).2.built[
        [(⟨1000, 9223372036854775807, 0, false, sampleEpics.take 1⟩ :
          ListEpicResult)].length + 1]?
      = some ("/rest/agile/1.0/epic/search?startAt=" ++
          toString ((⟨1000, 5, 0, false, sampleEpics.take 2⟩ : ListEpicResult).startAt +
            ((⟨1000, 5, 0, false, sampleEpics.take 2⟩ : ListEpicResult).values.length : Int))
          ++ "&maxResults=1000") :=
  ⟨⟨by decide, rfl, by decide, by decide⟩,
    (listEpics_cursor_advances [⟨1000, 9223372036854775807, 0, false, sampleEpics.take 1⟩]
      ⟨1000, 5, 0, false, sampleEpics.take 2⟩ [] (by decide) rfl (by decide) 3
      (by decide)).2.1⟩


/-! ## The loop on an empty page that is not the last -/

theorem emptyPage_loop {σ : Type} (client : Client σ ListEpicResult) (c : Int)
    (hc : InIntRange c)
    (h : ∀ s, ∃ req s1 r s2,
      client.newRequest s "GET" (listEndpoint c 1000) = (.ok req, s1) ∧
      client.exec s1 req = (.ok r, s2) ∧
      r.startAt = c ∧ r.values = [] ∧ r.isLast = false) (n : Nat) :
    ∀ st : Run σ,
      (listEpicsLoop client 1000 n c st).1 = none ∧
      (listEpicsLoop client 1000 n c st).2.built
        = st.built ++ List.replicate n (listEndpoint c 1000) ∧
      (listEpicsLoop client 1000 n c st).2.rows = st.rows := by
  induction n with
  | zero => intro st; simp [listEpicsLoop]
  | succ k ih =>
    intro st
    obtain ⟨req, s1, r, s2, hnr, hex, hS, hV, hL⟩ := h st.server
    have hnext : addInt r.startAt (r.values.length : Int) = c := by
      rw [hS, hV]
      simp only [List.length_nil, Nat.cast_zero, add_zero, addInt]
      exact wrapInt_of_inRange c hc
    simp only [listEpicsLoop, hnr, hex, hL, hnext]
    rw [if_neg (by simp)]
    obtain ⟨h1, h2, h3⟩ := ih
      { server := s2, built := st.built ++ [listEndpoint c 1000],
        sent := st.sent ++ [req], rows := st.rows ++ r.values }
    refine ⟨h1, ?_, ?_⟩
    · rw [h2]
      simp [List.replicate_succ]
    · rw [h3, hV]
      simp

/-- C10. `listEpics` makes no progress on an empty page that is not the
last: when the remote side answers the request at cursor `c` with
`startAt=c`, no values and `isLast=false`, the loop of `listEpics` at cursor
`c` has, for every bound `n`, not returned after `n` iterations, and its
`n` requests are all the identical request at cursor `c`; from the start of
`listEpics` this is the case `c = 0`. -/
theorem listEpics_no_progress_on_empty_page {σ : Type} (env : Env σ ListEpicResult)
    (client : Client σ ListEpicResult) (hconn : env.connect = .ok client) (c : Int)
    (hc : InIntRange c)
    (h : ∀ s, ∃ req s1 r s2,
      client.newRequest s "GET" (listEndpoint c 1000) = (.ok req, s1) ∧
      client.exec s1 req = (.ok r, s2) ∧
      r.startAt = c ∧ r.values = [] ∧ r.isLast = false) (n : Nat) (st : Run σ) :
    ((listEpicsLoop client 1000 n c st).1 = none ∧
      (listEpicsLoop client 1000 n c st).2.built
        = st.built ++ List.replicate n (listEndpoint c 1000)) ∧
    (c = 0 →
      (listEpics env n st).1 = none ∧
      (listEpics env n st).2.built
        = st.built ++ List.replicate n
            "/rest/agile/1.0/epic/search?startAt=0&maxResults=1000") := by
  obtain ⟨h1, h2, _⟩ := emptyPage_loop client c hc h n st
  refine ⟨⟨h1, h2⟩, ?_⟩
  intro h0
  subst h0
  simp only [listEpics, hconn]
  refine ⟨h1, ?_⟩
  rw [h2]
  rfl

theorem listEpics_no_progress_on_empty_page_witness :
    InIntRange 0 ∧
    (listEpics (⟨.ok emptyPageClient, fun _ => false⟩ : Env Unit ListEpicResult) 3
      (Run.init ())).1 = none ∧
    (listEpics (⟨.ok emptyPageClient, fun _ => false⟩ : Env Unit ListEpicResult) 3
      (Run.init ())).2.built
      = [] ++ List.replicate 3 "/rest/agile/1.0/epic/search?startAt=0&maxResults=1000" :=
  ⟨by decide,
    (listEpics_no_progress_on_empty_page
      (⟨.ok emptyPageClient, fun _ => false⟩ : Env Unit ListEpicResult)
      emptyPageClient rfl 0 (by decide)
      (fun s => ⟨⟨"GET", listEndpoint 0 1000⟩, s,
        ⟨1000, 0, 0, false, []⟩, s, rfl, rfl, rfl, rfl, rfl⟩)
      3 (Run.init ())).2 rfl⟩


/-! ## Claims about `getEpic` -/

theorem containsChars_iff_infix (sub : List Char) :
    ∀ s : List Char, containsChars s sub = true ↔ sub <:+: s := by
  intro s
  induction s with
  | nil => cases sub <;> simp [containsChars]
  | cons c cs ih =>
    simp only [containsChars, Bool.or_eq_true, ih, List.infix_cons_iff,
      List.isPrefixOf_iff_prefix]

theorem getEpic_built {σ : Type} (env : Env σ Epic) (client : Client σ Epic)
    (hconn : env.connect = .ok client) (d : QueryData) (st : Run σ) :
    (getEpic env d st).2.built = st.built ++
      [epicEndpoint (getInt64Value (d.keyColumnQuals "id"))
        (getStringValue (d.keyColumnQuals "key"))] ∧
    (getEpic env d st).2.sent.length ≤ st.sent.length + 1 := by
  simp only [getEpic, hconn]
  rcases client.newRequest st.server "GET"
    (epicEndpoint (getInt64Value (d.keyColumnQuals "id"))
      (getStringValue (d.keyColumnQuals "key"))) with ⟨a, sv⟩
  cases a with
  | error err => simp
  | ok req =>
    simp only []
    rcases client.exec sv req with ⟨b, sv2⟩
    cases b with
    | error err =>
      simp only []
      split <;> simp
    | ok epic => simp

theorem getEpic_sent {σ : Type} (env : Env σ Epic) (client : Client σ Epic)
    (hconn : env.connect = .ok client) (d : QueryData) (st : Run σ) (req : Request)
    (s1 : σ)
    (hreq : client.newRequest st.server "GET"
      (epicEndpoint (getInt64Value (d.keyColumnQuals "id"))
        (getStringValue (d.keyColumnQuals "key"))) = (.ok req, s1)) :
    (getEpic env d st).2.sent = st.sent ++ [req] := by
  simp only [getEpic, hconn, hreq]
  rcases client.exec s1 req with ⟨b, sv2⟩
  cases b with
  | error err =>
    simp only []
    split <;> rfl
  | ok epic => rfl

theorem getEpic_build_fails {σ : Type} (env : Env σ Epic) (client : Client σ Epic)
    (hconn : env.connect = .ok client) (d : QueryData) (st : Run σ) (e : Error)
    (s1 : σ)
    (hreq : client.newRequest st.server "GET"
      (epicEndpoint (getInt64Value (d.keyColumnQuals "id"))
        (getStringValue (d.keyColumnQuals "key"))) = (.error e, s1)) :
    (getEpic env d st).1 = ⟨none, some e⟩ ∧ (getEpic env d st).2.sent = st.sent := by
  simp only [getEpic, hconn, hreq]
  trivial

theorem getEpic_connect_fails {σ : Type} (env : Env σ Epic) (err : Error)
    (hconn : env.connect = .error err) (d : QueryData) (st : Run σ) :
    getEpic env d st = (⟨none, some err⟩, st) := by
  simp only [getEpic, hconn]

/-- C4, as stated, fails in its last sentence: with the key `%zz400` and a
client whose `NewRequest` rejects the endpoint, the endpoint is built but no
request is performed, and when `connect` fails no endpoint is requested at
all; in both cases `getEpic` returns the error. -/
theorem getEpic_no_request_counterexample :
    (getEpic (rejectingEnv ⟨"invalid URL escape %zz", none⟩) (quals none (some "%zz400"))
      (Run.init ())).2.built = ["/rest/agile/1.0/epic/%zz400"] ∧
    (getEpic (rejectingEnv ⟨"invalid URL escape %zz", none⟩) (quals none (some "%zz400"))
      (Run.init ())).2.sent = [] ∧
    (getEpic (rejectingEnv ⟨"invalid URL escape %zz", none⟩) (quals none (some "%zz400"))
      (Run.init ())).1 = ⟨none, some ⟨"invalid URL escape %zz", none⟩⟩ ∧
    (getEpic (disconnectedEnv ⟨"no credentials", none⟩) (quals (some 10) none)
      (Run.init ())).2.built = [] ∧
    (getEpic (disconnectedEnv ⟨"no credentials", none⟩) (quals (some 10) none)
      (Run.init ())).2.sent = [] := by
  decide

/-- C4, amended. Endpoint selection in `getEpic`: once `connect` has yielded
the client, the endpoint passed to `NewRequest` is `/rest/agile/1.0/epic/`
followed by the key when a non-empty key is supplied (whatever the id
qualifier, present or not), and `/rest/agile/1.0/epic/` followed by the
decimal rendering of the id when the key is absent or empty; with neither
qualifier the id is 0 and the endpoint is `/rest/agile/1.0/epic/0`. That
endpoint is the only one built. When `NewRequest` succeeds the request it
yields is performed, and it is the only one; when `NewRequest` fails no
request is performed and its error is returned; when `connect` fails no
endpoint is built, no request is performed and its error is returned. -/
theorem getEpic_endpoint_selection {σ : Type} (env : Env σ Epic) (client : Client σ Epic)
    (hconn : env.connect = .ok client) (s : σ) :
    (∀ (oid : Option Int) (key : String), key ≠ "" →
      (getEpic env (quals oid (some key)) (Run.init s)).2.built
        = ["/rest/agile/1.0/epic/" ++ key]) ∧
    (∀ (id : Int) (okey : Option String), okey = none ∨ okey = some "" →
      (getEpic env (quals (some id) okey) (Run.init s)).2.built
        = ["/rest/agile/1.0/epic/" ++ toString id]) ∧
    (getEpic env (quals none none) (Run.init s)).2.built = ["/rest/agile/1.0/epic/0"] ∧
    (∀ d : QueryData, (getEpic env d (Run.init s)).2.built.length = 1 ∧
      (getEpic env d (Run.init s)).2.sent.length ≤ 1) ∧
    (∀ (d : QueryData) (req : Request) (s1 : σ),
      client.newRequest s "GET"
        (epicEndpoint (getInt64Value (d.keyColumnQuals "id"))
          (getStringValue (d.keyColumnQuals "key"))) = (.ok req, s1) →
      (getEpic env d (Run.init s)).2.sent = [req]) ∧
    (∀ (d : QueryData) (e : Error) (s1 : σ),
      client.newRequest s "GET"
        (epicEndpoint (getInt64Value (d.keyColumnQuals "id"))
          (getStringValue (d.keyColumnQuals "key"))) = (.error e, s1) →
      (getEpic env d (Run.init s)).2.sent = [] ∧
      (getEpic env d (Run.init s)).1 = ⟨none, some e⟩) ∧
    (∀ (env0 : Env σ Epic) (err : Error), env0.connect = .error err →
      ∀ d : QueryData,
        (getEpic env0 d (Run.init s)).2.built = [] ∧
        (getEpic env0 d (Run.init s)).2.sent = [] ∧
        (getEpic env0 d (Run.init s)).1 = ⟨none, some err⟩) := by
  refine ⟨?_, ?_, ?_, ?_, ?_, ?_, ?_⟩
  · intro oid key hkey
    rw [(getEpic_built env client hconn _ _).1]
    simp [Run.init, quals, getStringValue, epicEndpoint, hkey]
  · intro id okey hokey
    rw [(getEpic_built env client hconn _ _).1]
    rcases hokey with rfl | rfl <;>
      simp [Run.init, quals, getStringValue, getInt64Value, epicEndpoint]
  · rw [(getEpic_built env client hconn _ _).1]
    simp [Run.init, quals, getStringValue, getInt64Value, epicEndpoint]
    decide
  · intro d
    obtain ⟨h1, h2⟩ := getEpic_built env client hconn d (Run.init s)
    rw [h1]
    refine ⟨by simp [Run.init], ?_⟩
    simpa [Run.init] using h2
  · intro d req s1 hreq
    rw [getEpic_sent env client hconn d (Run.init s) req s1 hreq]
    rfl
  · intro d e s1 hreq
    obtain ⟨h1, h2⟩ := getEpic_build_fails env client hconn d (Run.init s) e s1 hreq
    exact ⟨by rw [h2]; rfl, h1⟩
  · intro env0 err herr d
    rw [getEpic_connect_fails env0 err herr d (Run.init s)]
    exact ⟨rfl, rfl, rfl⟩

theorem getEpic_endpoint_selection_witness :
    (fixedEnv (.ok sampleEpic)).connect = .ok (fixedClient (.ok sampleEpic)) ∧
    (getEpic (fixedEnv (.ok sampleEpic)) (quals (some 10) (some "PROJ-1"))
      (Run.init ())).2.built = ["/rest/agile/1.0/epic/" ++ "PROJ-1"] :=
  ⟨rfl,
    (getEpic_endpoint_selection (fixedEnv (.ok sampleEpic))
      (fixedClient (.ok sampleEpic)) rfl ()).1 (some 10) "PROJ-1" (by decide)⟩


theorem getEpic_on_error {σ : Type} (env : Env σ Epic) (client : Client σ Epic)
    (hconn : env.connect = .ok client) (d : QueryData) (st : Run σ) (req : Request)
    (s1 : σ)
    (hreq : client.newRequest st.server "GET"
      (epicEndpoint (getInt64Value (d.keyColumnQuals "id"))
        (getStringValue (d.keyColumnQuals "key"))) = (.ok req, s1))
    (e : Error) (s2 : σ) (hex : client.exec s1 req = (.error e, s2)) :
    (getEpic env d st).1 =
      if env.isNotFoundError e || stringsContains e.message "400" then ⟨none, none⟩
      else ⟨none, some e⟩ := by
  simp only [getEpic, hconn, hreq, hex]
  split <;> rfl

theorem getEpic_on_success {σ : Type} (env : Env σ Epic) (client : Client σ Epic)
    (hconn : env.connect = .ok client) (d : QueryData) (st : Run σ) (req : Request)
    (s1 : σ)
    (hreq : client.newRequest st.server "GET"
      (epicEndpoint (getInt64Value (d.keyColumnQuals "id"))
        (getStringValue (d.keyColumnQuals "key"))) = (.ok req, s1))
    (epic : Epic) (s2 : σ) (hex : client.exec s1 req = (.ok epic, s2)) :
    (getEpic env d st).1 = ⟨some epic, none⟩ := by
  simp only [getEpic, hconn, hreq, hex]

theorem stringsContains_iff (s sub : String) :
    stringsContains s sub = true ↔ sub.toList <:+: s.toList :=
  containsChars_iff_infix sub.toList s.toList

/-- C5. Soft-miss classification in `getEpic`: when the request is built and
performing it fails with error `e`, `getEpic` returns `(nil, nil)` if and
only if `isNotFoundError e` holds or the message of `e` contains the
substring "400", and for every other error it returns a nil result and `e`
itself; when the request succeeds it returns the decoded Epic and a nil
error. -/
theorem getEpic_soft_miss {σ : Type} (env : Env σ Epic) (client : Client σ Epic)
    (hconn : env.connect = .ok client) (d : QueryData) (st : Run σ) (req : Request)
    (s1 : σ)
    (hreq : client.newRequest st.server "GET"
      (epicEndpoint (getInt64Value (d.keyColumnQuals "id"))
        (getStringValue (d.keyColumnQuals "key"))) = (.ok req, s1)) :
    (∀ (e : Error) (s2 : σ), client.exec s1 req = (.error e, s2) →
      ((getEpic env d st).1 = ⟨none, none⟩ ↔
        (env.isNotFoundError e = true ∨ "400".toList <:+: e.message.toList)) ∧
      (¬ (env.isNotFoundError e = true ∨ "400".toList <:+: e.message.toList) →
        (getEpic env d st).1 = ⟨none, some e⟩)) ∧
    (∀ (epic : Epic) (s2 : σ), client.exec s1 req = (.ok epic, s2) →
      (getEpic env d st).1 = ⟨some epic, none⟩) := by
  refine ⟨?_, ?_⟩
  · intro e s2 hex
    rw [getEpic_on_error env client hconn d st req s1 hreq e s2 hex]
    by_cases hc : env.isNotFoundError e = true ∨ "400".toList <:+: e.message.toList
    · have hb : (env.isNotFoundError e || stringsContains e.message "400") = true := by
        rw [Bool.or_eq_true, stringsContains_iff]; exact hc
      rw [if_pos hb]
      exact ⟨⟨fun _ => hc, fun _ => rfl⟩, fun h => absurd hc h⟩
    · have hb : ¬ (env.isNotFoundError e || stringsContains e.message "400") = true := by
        rw [Bool.or_eq_true, stringsContains_iff]; exact hc
      rw [if_neg hb]
      exact ⟨⟨fun h => (by cases h), fun h => absurd h hc⟩, fun _ => rfl⟩
  · intro epic s2 hex
    exact getEpic_on_success env client hconn d st req s1 hreq epic s2 hex

theorem getEpic_soft_miss_witness :
    ((fixedEnv (.error ⟨"404 Not Found", some 404⟩)).connect
        = .ok (fixedClient (.error ⟨"404 Not Found", some 404⟩)) ∧
      (fixedClient (.error ⟨"404 Not Found", some 404⟩)).newRequest (Run.init ()).server
        "GET" (epicEndpoint (getInt64Value ((quals none (some "PROJ-9")).keyColumnQuals "id"))
          (getStringValue ((quals none (some "PROJ-9")).keyColumnQuals "key")))
        = (.ok ⟨"GET", "/rest/agile/1.0/epic/PROJ-9"⟩, ())) ∧
    ((getEpic (fixedEnv (.error ⟨"404 Not Found", some 404⟩)) (quals none (some "PROJ-9"))
        (Run.init ())).1 = ⟨none, none⟩ ↔
      ((fixedEnv (.error ⟨"404 Not Found", some 404⟩)).isNotFoundError
          ⟨"404 Not Found", some 404⟩ = true ∨
        "400".toList <:+: (⟨"404 Not Found", some 404⟩ : Error).message.toList)) :=
  ⟨⟨rfl, rfl⟩,
    ((getEpic_soft_miss (fixedEnv (.error ⟨"404 Not Found", some 404⟩))
      (fixedClient (.error ⟨"404 Not Found", some 404⟩)) rfl (quals none (some "PROJ-9"))
      (Run.init ()) ⟨"GET", "/rest/agile/1.0/epic/PROJ-9"⟩ () rfl).1
        ⟨"404 Not Found", some 404⟩ () rfl).1⟩

/-- C6, as stated, fails: an error that stems from a 500 response and is not
classified not-found, but whose message contains the characters "400", is
swallowed: `getEpic` returns `(nil, nil)`. -/
theorem getEpic_swallows_server_error_counterexample :
    (⟨"request failed. Status code: 500 (after 400 ms)", some 500⟩ : Error).statusCode
      = some 500 ∧
    (fixedEnv (.error ⟨"request failed. Status code: 500 (after 400 ms)", some 500⟩)
      ).isNotFoundError ⟨"request failed. Status code: 500 (after 400 ms)", some 500⟩
      = false ∧
    (getEpic (fixedEnv (.error ⟨"request failed. Status code: 500 (after 400 ms)", some 500⟩))
      (quals (some 10) none) (Run.init ())).1 = ⟨none, none⟩ := by
  decide

/-- C6, amended. For every id and key and every error `e` of the request
that stems from a 500 response, is not classified not-found and whose
message does not contain "400", `getEpic` returns the error `e` and no
result; an error classified not-found yields an empty result with a nil
error, and so does one whose message contains "400"; no other error does. -/
theorem getEpic_server_error_surfaces {σ : Type} (env : Env σ Epic)
    (client : Client σ Epic) (hconn : env.connect = .ok client) (oid : Option Int)
    (okey : Option String) (st : Run σ) (req : Request) (s1 : σ)
    (hreq : client.newRequest st.server "GET"
      (epicEndpoint (getInt64Value ((quals oid okey).keyColumnQuals "id"))
        (getStringValue ((quals oid okey).keyColumnQuals "key"))) = (.ok req, s1))
    (e : Error) (s2 : σ) (hex : client.exec s1 req = (.error e, s2)) :
    (e.statusCode = some 500 → env.isNotFoundError e = false →
      ¬ "400".toList <:+: e.message.toList →
      (getEpic env (quals oid okey) st).1 = ⟨none, some e⟩) ∧
    (env.isNotFoundError e = true → (getEpic env (quals oid okey) st).1 = ⟨none, none⟩) ∧
    ("400".toList <:+: e.message.toList →
      (getEpic env (quals oid okey) st).1 = ⟨none, none⟩) ∧
    ((getEpic env (quals oid okey) st).1 = ⟨none, none⟩ →
      env.isNotFoundError e = true ∨ "400".toList <:+: e.message.toList) := by
  rw [getEpic_on_error env client hconn (quals oid okey) st req s1 hreq e s2 hex]
  refine ⟨?_, ?_, ?_, ?_⟩
  · intro _ hnf h400
    have : stringsContains e.message "400" = false := by
      rw [Bool.eq_false_iff, Ne, stringsContains_iff]; exact h400
    simp [hnf, this]
  · intro hnf
    simp [hnf]
  · intro h400
    have : stringsContains e.message "400" = true := (stringsContains_iff _ _).2 h400
    simp [this]
  · intro hres
    by_cases hb : (env.isNotFoundError e || stringsContains e.message "400") = true
    · rw [Bool.or_eq_true, stringsContains_iff] at hb
      exact hb
    · rw [if_neg hb] at hres
      cases hres

theorem getEpic_server_error_surfaces_witness :
    ((fixedEnv (.error ⟨"request failed. Status code: 500", some 500⟩)).connect
        = .ok (fixedClient (.error ⟨"request failed. Status code: 500", some 500⟩)) ∧
      (fixedClient (.error ⟨"request failed. Status code: 500", some 500⟩)).exec ()
        ⟨"GET", "/rest/agile/1.0/epic/10"⟩
        = (.error ⟨"request failed. Status code: 500", some 500⟩, ()) ∧
      (⟨"request failed. Status code: 500", some 500⟩ : Error).statusCode = some 500 ∧
      (fixedEnv (.error ⟨"request failed. Status code: 500", some 500⟩)).isNotFoundError
        ⟨"request failed. Status code: 500", some 500⟩ = false ∧
      ¬ "400".toList <:+:
        (⟨"request failed. Status code: 500", some 500⟩ : Error).message.toList) ∧
    (getEpic (fixedEnv (.error ⟨"request failed. Status code: 500", some 500⟩))
      (quals (some 10) none) (Run.init ())).1
      = ⟨none, some ⟨"request failed. Status code: 500", some 500⟩⟩ :=
  ⟨⟨rfl, rfl, rfl, rfl, by decide⟩,
    (getEpic_server_error_surfaces
      (fixedEnv (.error ⟨"request failed. Status code: 500", some 500⟩))
      (fixedClient (.error ⟨"request failed. Status code: 500", some 500⟩)) rfl
      (some 10) none (Run.init ()) ⟨"GET", "/rest/agile/1.0/epic/10"⟩ () rfl
      ⟨"request failed. Status code: 500", some 500⟩ () rfl).1 rfl rfl (by decide)⟩

/-! ## The schema -/

/-- C9. Title alias in the `jira_epic` schema: the column `title` is declared
as a STRING column with transform `FromField("Name")`; for every Epic `e` its
value is `e.Name` exactly, which is also the value of the column `name`; for
the Epic of the spec's scenario both are "Launch". -/
theorem tableEpic_title_alias (desc : String) (e : Epic) :
    (tableEpic desc).columns.find? (fun c => c.name == "title")
      = some ⟨"title", desc, ColumnType.STRING, some (Transform.fromField "Name")⟩ ∧
    columnValue (tableEpic desc) "title" e = some (Value.str e.name) ∧
    columnValue (tableEpic desc) "name" e = columnValue (tableEpic desc) "title" e ∧
    columnValue (tableEpic desc) "name" sampleEpic = some (Value.str "Launch") ∧
    columnValue (tableEpic desc) "title" sampleEpic = some (Value.str "Launch") := by
  refine ⟨rfl, rfl, rfl, rfl, rfl⟩

end Jira
